import Mathlib

/-!
Shallow embedding of the `echoi18n` repository (an i18n middleware for the
Echo web framework) and proofs about it.

Modelling conventions:
* `language.Tag` values are represented by their string form (`"en"`, `"zh"`,
  `"und"` for the zero tag `language.Und`), since the middleware only ever
  consumes tags through `Tag.String()`.
* Go maps / `sync.Map` / `url.Values` / `http.Header` are association lists;
  `Store` replaces an existing binding or appends, `Load`/`Get` return the
  first binding.
* Go pointers to `Config` are modelled by a heap (`Heap`) mapping references
  to `Config` values, so that the in-place mutation performed by
  `configDefault` and `NewMiddleware` and the sharing of the global
  `ConfigDefault` instance are observable.
* A Go `panic` is modelled by the `.error` constructor of `Except` for
  construction-time code (whose Go counterpart returns no error value), and
  by `none` / a dedicated constructor for the request-time entry points.
* External collaborators (`go-i18n` bundles and localizers, `yaml.Unmarshal`,
  `os.ReadFile`) are modelled from their documented contracts as used by this
  repository; translation formatting (template substitution, pluralization)
  is out of scope, as the spec declares it a non-goal.
-/

namespace EchoI18n

/-- First-binding association lookup, the model of reading a Go map or of
`url.Values.Get` / `http.Header.Get`. -/
def alookup {κ α : Type} [DecidableEq κ] (k : κ) : List (κ × α) → Option α
  | [] => none
  | (k1, v) :: t => if k1 = k then some v else alookup k t

/-- Replace-or-append association update, the model of a Go map write /
`sync.Map.Store`. -/
def astore {κ α : Type} [DecidableEq κ] (k : κ) (v : α) : List (κ × α) → List (κ × α)
  | [] => [(k, v)]
  | (k1, v1) :: t => if k1 = k then (k, v) :: t else (k1, v1) :: astore k v t

/-- Remove every binding of a key from an association list. -/
def eraseKey {κ α : Type} [DecidableEq κ] (k : κ) (l : List (κ × α)) : List (κ × α) :=
  l.filter (fun p => decide (p.1 ≠ k))

/-- Boolean list-prefix test (used to state that one string occurs inside
another). -/
def charsPrefixB : List Char → List Char → Bool
  | [], _ => true
  | _ :: _, [] => false
  | a :: n, b :: l => a == b && charsPrefixB n l

/-- Boolean list-infix test. -/
def charsInfixB (n : List Char) : List Char → Bool
  | [] => charsPrefixB n []
  | c :: t => charsPrefixB n (c :: t) || charsInfixB n t

/-- `strContains hay needle` holds when `needle` occurs as a contiguous
substring of `hay`. -/
def strContains (hay needle : String) : Bool :=
  charsInfixB needle.data hay.data

/-- Language tags, by their `String()` form. -/
abbrev Tag := String

/-- The zero tag `language.Und` (`Tag.String()` is `"und"`). -/
def Tag.und : Tag := "und"

/-- `language.English`. -/
def Tag.english : Tag := "en"

/-- `language.Chinese`. -/
def Tag.chinese : Tag := "zh"

/-- The observable part of an `*http.Request` that this middleware reads:
query parameters and headers, first binding wins (as in `url.Values.Get` and
`http.Header.Get`). -/
structure HttpRequest where
  queryParams : List (String × String) := []
  headers : List (String × String) := []

/-- `echo.Context.QueryParam`: first value of the query parameter, `""` when
absent. -/
def HttpRequest.QueryParam (r : HttpRequest) (k : String) : String :=
  (alookup k r.queryParams).getD ""

/-- `http.Header.Get`: first value of the header, `""` when absent (header
keys are taken as already canonicalized). -/
def HttpRequest.HeaderGet (r : HttpRequest) (k : String) : String :=
  (alookup k r.headers).getD ""

/-- `defaultLangHandler` from i18n.go.  The Go function receives an
`echo.Context`; it only ever reads the context's request, so the embedding
passes that view directly: `none` covers both a nil context and a context
with a nil `*http.Request` (the Go guard `c == nil || c.Request() == nil`). -/
def defaultLangHandler (req : Option HttpRequest) (defaultLang : String) : String :=
  match req with
  | none => defaultLang
  | some r =>
    let lang := r.QueryParam "lang"
    if lang ≠ "" then lang
    else
      let lang := r.HeaderGet "Accept-Language"
      if lang ≠ "" then lang
      else defaultLang

/-- Split a character list on a separator (model of splitting a path on
`'/'` or a file name on `'.'`). -/
def splitOnChar (sep : Char) : List Char → List (List Char)
  | [] => [[]]
  | c :: t =>
    let r := splitOnChar sep t
    if c = sep then [] :: r
    else
      match r with
      | [] => [[c]]
      | h :: t2 => (c :: h) :: t2

/-- Join character lists with a separator. -/
def joinSep (sep : Char) : List (List Char) → List Char
  | [] => []
  | [x] => x
  | x :: xs => x ++ sep :: joinSep sep xs

/-- The component-stack pass of Go `path.Clean`: drop empty and `"."`
components, resolve `".."` against the stack (discarding it at the root of a
rooted path). -/
def pathCleanComps (rooted : Bool) (comps : List (List Char)) : List (List Char) :=
  (comps.foldl
    (fun acc c =>
      if c = [] ∨ c = ['.'] then acc
      else if c = ['.', '.'] then
        match acc with
        | [] => if rooted then [] else [['.', '.']]
        | a :: rest => if a = ['.', '.'] then c :: acc else rest
      else c :: acc)
    []).reverse

/-- Go `path.Clean`. -/
def pathClean (p : String) : String :=
  match p.data with
  | [] => "."
  | c :: t =>
    let rooted := c = '/'
    let out := pathCleanComps rooted (splitOnChar '/' (c :: t))
    let s := joinSep '/' out
    if rooted then String.mk ('/' :: s)
    else if s = [] then "." else String.mk s

/-- Go `path.Join` for two elements: empty elements are dropped, the rest are
joined with `"/"` and the result is cleaned; joining two empty strings gives
`""`. -/
def pathJoin (a b : String) : String :=
  if a = "" then (if b = "" then "" else pathClean b)
  else if b = "" then pathClean a
  else pathClean (a ++ "/" ++ b)

/-- A decoded message file: message ID to translation text.  (Message
template internals are delegated to the translation library and out of
scope.) -/
abbrev Messages := List (String × String)

/-- Modelled from the spec: a trivial executable stand-in for the external
decoders (`yaml.Unmarshal`, `json.Unmarshal`), which the spec treats as
pluggable black boxes; it reads each `id=text` line as one message and never
fails.  Only the identity of the decoder, not its parsing behaviour, matters
to the middleware. -/
def parseLines (s : String) : Messages :=
  (splitOnChar '\n' s.data).filterMap fun line =>
    match splitOnChar '=' line with
    | k :: v :: _ => some (String.mk k, String.mk v)
    | _ => none

/-- An `i18n.UnmarshalFunc`.  The two decoders the repository mentions
(`yaml.Unmarshal` in the defaults, `json.Unmarshal` in the embedded test
setup) are distinguished constructors so that configuration defaulting can
speak about which decoder was installed; arbitrary user functions are
`custom`. -/
inductive UnmarshalFunc where
  | yamlUnmarshal : UnmarshalFunc
  | jsonUnmarshal : UnmarshalFunc
  | custom (f : String → Except String Messages) : UnmarshalFunc

/-- Run an unmarshal function on file bytes. -/
def UnmarshalFunc.run : UnmarshalFunc → String → Except String Messages
  | .yamlUnmarshal, s => .ok (parseLines s)
  | .jsonUnmarshal, s => .ok (parseLines s)
  | .custom f, s => f s

/-- A file system image: path to file bytes (bytes modelled as `String`). -/
abbrev FileSys := List (String × String)

/-- A `Loader`.  `osReadFile` is the disk-backed `LoaderFunc(os.ReadFile)`
from the defaults, `embedLoader` is `EmbedLoader` over an embedded file
system (embed.go), and `loaderFunc` is an arbitrary user `LoaderFunc`. -/
inductive Loader where
  | osReadFile : Loader
  | embedLoader (fs : FileSys) : Loader
  | loaderFunc (f : String → Except String String) : Loader

/-- `Loader.LoadMessage`: fetch the raw bytes at a path.  The disk loader
reads from the ambient disk image `disk`; the embedded loader reads from its
captured file system. -/
def Loader.LoadMessage (disk : FileSys) : Loader → String → Except String String
  | .osReadFile, p =>
    match alookup p disk with
    | some b => .ok b
    | none => .error ("open " ++ p ++ ": no such file or directory")
  | .embedLoader fs, p =>
    match alookup p fs with
    | some b => .ok b
    | none => .error ("open " ++ p ++ ": file does not exist")
  | .loaderFunc f, p => f p

/-- An `i18n.Bundle`: default language, registered unmarshal functions by
format name, and parsed messages by language (modelled from the library's
documented contract as the spec describes it). -/
structure Bundle where
  defaultLanguage : Tag
  unmarshalFuncs : List (String × UnmarshalFunc)
  messages : List (Tag × Messages)

/-- `i18n.NewBundle`. -/
def NewBundle (t : Tag) : Bundle := ⟨t, [], []⟩

/-- `Bundle.RegisterUnmarshalFunc`. -/
def Bundle.RegisterUnmarshalFunc (b : Bundle) (format : String) (f : UnmarshalFunc) :
    Bundle :=
  { b with unmarshalFuncs := astore format f b.unmarshalFuncs }

/-- Last path component. -/
def baseName (p : String) : List Char :=
  (splitOnChar '/' p.data).getLastD []

/-- The format of a bundle file path: the extension of its base name (the
registration key the library uses to pick the unmarshal function). -/
def bundleFmtOfPath (p : String) : String :=
  let parts := splitOnChar '.' (baseName p)
  if 2 ≤ parts.length then String.mk (parts.getLastD []) else ""

/-- The language tag encoded in a bundle file path: the part of the base
name just before the extension (`"dir/en.json"` → `"en"`). -/
def bundleLangOfPath (p : String) : String :=
  let parts := splitOnChar '.' (baseName p)
  if 2 ≤ parts.length then String.mk (parts.getD (parts.length - 2) [])
  else String.mk (parts.headD [])

/-- Merge a decoded message file into a bundle's per-language messages. -/
def storeMerge (lang : Tag) (msgs : Messages) : List (Tag × Messages) → List (Tag × Messages)
  | [] => [(lang, msgs)]
  | (l, ms) :: t =>
    if l = lang then (l, ms ++ msgs) :: t else (l, ms) :: storeMerge lang msgs t

/-- `Bundle.ParseMessageFileBytes`: pick the unmarshal function registered
for the path's format (error when none is registered), decode the bytes
(error when decoding fails), and file the messages under the language tag
encoded in the path. -/
def Bundle.ParseMessageFileBytes (b : Bundle) (buf : String) (path : String) :
    Except String Bundle :=
  let fmt := bundleFmtOfPath path
  match alookup fmt b.unmarshalFuncs with
  | none => .error ("no unmarshaler registered for " ++ fmt)
  | some u =>
    match u.run buf with
    | .error e => .error e
    | .ok msgs => .ok { b with messages := storeMerge (bundleLangOfPath path) msgs b.messages }

/-- An `i18n.Localizer` bound to one language over a bundle. -/
structure Localizer where
  bundle : Bundle
  lang : Tag

/-- `i18n.NewLocalizer`. -/
def NewLocalizer (b : Bundle) (lang : String) : Localizer := ⟨b, lang⟩

/-- The structured localization request `*i18n.LocalizeConfig`, as the spec
describes it: a message identifier plus optional template data and plural
count. -/
structure LocalizeConfig where
  MessageID : String
  TemplateData : Messages := []
  PluralCount : Option Int := none

/-- Look a message ID up in one language's decoded messages. -/
def msgLookup (b : Bundle) (lang : Tag) (id : String) : Option String :=
  match alookup lang b.messages with
  | none => none
  | some ms => alookup id ms

/-- The library's message-not-found error text (observed verbatim in the
repository's tests). -/
def msgNotFoundErr (id lang : String) : String :=
  "message " ++ "\"" ++ id ++ "\"" ++ " not found in language " ++ "\"" ++ lang ++ "\""

/-- `Localizer.Localize`, modelled from the library contract the spec relies
on: resolve the message in the localizer's language, fall back to the
bundle's default language, and otherwise fail with an error naming the
message ID and the localizer's language.  Template rendering and plural
selection are delegated (spec non-goal), so the stored text is returned
as-is. -/
def Localizer.Localize (l : Localizer) (lc : LocalizeConfig) : Except String String :=
  match msgLookup l.bundle l.lang lc.MessageID with
  | some m => .ok m
  | none =>
    match msgLookup l.bundle l.bundle.defaultLanguage lc.MessageID with
    | some m => .ok m
    | none => .error (msgNotFoundErr lc.MessageID l.lang)

/-- The localizer map (`*sync.Map`, populated once at construction). -/
abbrev LocalizerMap := List (String × Localizer)

/-- `Config` from i18n.go.  Nil-able Go fields (slices, interfaces, function
and pointer fields) are `Option`s whose `none` is Go `nil`; the zero tag is
`Tag.und`.  The `sync.Mutex` field guards only the one-time publication of
`localizerMap` and has no observable effect in a sequential embedding, so it
is not represented.  The language handler receives the view of the
`echo.Context` it actually reads: the context's request (`none` for a nil
context or nil request). -/
structure Config where
  DefaultLanguage : Tag := Tag.und
  AcceptLanguages : Option (List Tag) := none
  FormatBundleFile : String := ""
  Loader : Option Loader := none
  RootPath : String := ""
  LangHandler : Option (Option HttpRequest → String → String) := none
  bundle : Option Bundle := none
  localizerMap : Option LocalizerMap := none
  UnmarshalFunc : Option UnmarshalFunc := none

/-- References to heap-allocated `Config` values (Go `*Config`). -/
abbrev Ref := Nat

/-- The heap of live `Config` allocations. -/
abbrev Heap := List (Ref × Config)

/-- Dereference a `*Config`. -/
def heapGet (h : Heap) (r : Ref) : Option Config := alookup r h

/-- Write through a `*Config`. -/
def heapSet (h : Heap) (r : Ref) (c : Config) : Heap := astore r c h

/-- The fixed reference of the package-level shared `ConfigDefault`
instance. -/
def ConfigDefaultRef : Ref := 0

/-- The package-level `ConfigDefault` value. -/
def ConfigDefault : Config :=
  { DefaultLanguage := Tag.english
    AcceptLanguages := some [Tag.chinese, Tag.english]
    FormatBundleFile := "yaml"
    Loader := some .osReadFile
    RootPath := "./example/localize"
    LangHandler := some defaultLangHandler
    UnmarshalFunc := some .yamlUnmarshal }

/-- The field-defaulting step of `configDefault`.  The Go code applies the
defaults by sequential in-place assignments to pairwise-distinct fields of
`cfg`; the net effect is this simultaneous update: every field still at its
zero value is replaced by the library default, every other field is kept. -/
def configDefaultFill (cfg : Config) : Config :=
  { cfg with
    DefaultLanguage :=
      if cfg.DefaultLanguage = Tag.und then Tag.english else cfg.DefaultLanguage
    AcceptLanguages :=
      if cfg.AcceptLanguages.isNone then some [Tag.chinese, Tag.english]
      else cfg.AcceptLanguages
    FormatBundleFile :=
      if cfg.FormatBundleFile = "" then "yaml" else cfg.FormatBundleFile
    Loader := if cfg.Loader.isNone then some .osReadFile else cfg.Loader
    RootPath := if cfg.RootPath = "" then "./example/localize" else cfg.RootPath
    LangHandler :=
      if cfg.LangHandler.isNone then some defaultLangHandler else cfg.LangHandler
    UnmarshalFunc :=
      if cfg.UnmarshalFunc.isNone then some .yamlUnmarshal else cfg.UnmarshalFunc }

/-- `configDefault`.  With no argument it returns the shared `ConfigDefault`
pointer itself and leaves the heap alone; with an argument it fills the
caller's struct in place through the caller's pointer and returns that same
pointer.  `none` models the nil-pointer dereference a nil `*Config` argument
would cause in Go. -/
def configDefault (config : List Ref) (h : Heap) : Option (Ref × Heap) :=
  match config with
  | [] => some (ConfigDefaultRef, h)
  | r :: _ =>
    match heapGet h r with
    | none => none
    | some c => some (r, heapSet h r (configDefaultFill c))

/-- The bundle-file path `loadMessages` builds for one language:
`path.Join(RootPath, lang.String() ++ "." ++ FormatBundleFile)`. -/
def bundleFilePath (root lang fmt : String) : String :=
  pathJoin root (lang ++ "." ++ fmt)

/-- `Config.loadMessage`: fetch one bundle file and parse it into the
bundle; either failure is a Go `panic`, modelled by `.error`. -/
def loadMessage (disk : FileSys) (loader : Loader) (b : Bundle) (filepath : String) :
    Except String Bundle :=
  match loader.LoadMessage disk filepath with
  | .error e => .error e
  | .ok buf =>
    match b.ParseMessageFileBytes buf filepath with
    | .error e => .error e
    | .ok b2 => .ok b2

/-- `Config.loadMessages`: load every accepted language's bundle file in
list order.  Besides the grown bundle it returns the trace of file paths the
loader was invoked on, so that path construction is observable. -/
def loadMessages (disk : FileSys) (loader : Loader) (root fmt : String) (b : Bundle) :
    List Tag → Except String (Bundle × List String)
  | [] => .ok (b, [])
  | lang :: rest =>
    let fp := bundleFilePath root lang fmt
    match loadMessage disk loader b fp with
    | .error e => .error e
    | .ok b2 =>
      match loadMessages disk loader root fmt b2 rest with
      | .error e => .error e
      | .ok (b3, tr) => .ok (b3, fp :: tr)

/-- `Config.initLocalizerMap`: one localizer per accepted language, plus one
for the default language when it is not already present. -/
def initLocalizerMap (b : Bundle) (langs : List Tag) (defaultLang : Tag) : LocalizerMap :=
  let m := langs.foldl (fun m lang => astore lang (NewLocalizer b lang) m) []
  if (alookup defaultLang m).isSome then m
  else astore defaultLang (NewLocalizer b defaultLang) m

/-- The bundle `NewMiddleware` builds before loading: `i18n.NewBundle` on
the default language with the configured unmarshal function registered for
the configured format (registering a nil function leaves the bundle without
a decoder, exactly as observable as Go's nil map entry). -/
def regBundle (cfg : Config) : Bundle :=
  match cfg.UnmarshalFunc with
  | some u => (NewBundle cfg.DefaultLanguage).RegisterUnmarshalFunc cfg.FormatBundleFile u
  | none => NewBundle cfg.DefaultLanguage

/-- The Go nil-dereference panic text. -/
def nilDerefErr : String := "runtime error: invalid memory address or nil pointer dereference"

/-- `NewMiddleware`: default the configuration, build and register the
bundle, load every accepted language's bundle file, build the localizer map,
and publish everything through the caller's pointer.  The Go function
returns only an `echo.MiddlewareFunc`; every failure is a panic, modelled by
`.error`.  On success it returns the heap after the writes, the
configuration pointer the middleware closure captured, and the published
configuration value. -/
def NewMiddleware (disk : FileSys) (config : List Ref) (h : Heap) :
    Except String (Heap × Ref × Config) :=
  match configDefault config h with
  | none => .error nilDerefErr
  | some (r, h1) =>
    match heapGet h1 r with
    | none => .error nilDerefErr
    | some cfg =>
      match cfg.Loader with
      | none => .error nilDerefErr
      | some loader =>
        match loadMessages disk loader cfg.RootPath cfg.FormatBundleFile (regBundle cfg)
            (cfg.AcceptLanguages.getD []) with
        | .error e => .error e
        | .ok (b2, _) =>
          let m := initLocalizerMap b2 (cfg.AcceptLanguages.getD []) cfg.DefaultLanguage
          let cfg2 := { cfg with bundle := some b2, localizerMap := some m }
          .ok (heapSet h1 r cfg2, r, cfg2)

/-- A value stored in the echo context's key/value store: either a `*Config`
(stored by the middleware) or a value of some other dynamic type. -/
inductive CtxVal where
  | config (cfg : Config) : CtxVal
  | other (desc : String) : CtxVal

/-- The observable part of an `echo.Context`: the request and the context
store. -/
structure EchoCtx where
  request : Option HttpRequest := none
  store : List (String × CtxVal) := []

/-- `localsKey`, the store key the middleware uses. -/
def localsKey : String := "echoi18n"

/-- The per-request action of the middleware handler: attach the
configuration to the context store (`c.Set(localsKey, cfg)`) before the next
handler runs. -/
def middlewareAttach (cfg : Config) (c : EchoCtx) : EchoCtx :=
  { c with store := astore localsKey (CtxVal.config cfg) c.store }

/-- The dynamic `params interface{}` argument of `Localize`: a bare message
ID string, a structured `*i18n.LocalizeConfig`, or a value of any other
type. -/
inductive LocalizeParams where
  | str (s : String) : LocalizeParams
  | lcfg (c : LocalizeConfig) : LocalizeParams
  | other (desc : String) : LocalizeParams

/-- The localizer lookup inside `Localize`: load the resolved language's
localizer, and when that is nil load the default language's localizer. -/
def lookupLocalizer (m : LocalizerMap) (lang defaultLang : String) : Option Localizer :=
  match alookup lang m with
  | some l => some l
  | none => alookup defaultLang m

/-- The tail of `Localize`: run the chosen localizer on the localization
request.  A `none` localizer makes the Go type assertion
`localizer.(*i18n.Localizer)` panic, modelled by `none`. -/
def localizeWith (loc : Option Localizer) (lc : LocalizeConfig) :
    Option (Except String String) :=
  match loc with
  | none => none
  | some l =>
    match l.Localize lc with
    | .error e => some (.error ("i18n.Localize error: " ++ e))
    | .ok m => some (.ok m)

/-- `Localize` from i18n.go.  The outer `Option` separates a Go panic
(`none`: nil language handler, nil localizer map pointer, or nil localizer —
none reachable through the middleware) from the function's ordinary
`(string, error)` result. -/
def Localize (c : EchoCtx) (params : LocalizeParams) : Option (Except String String) :=
  match alookup localsKey c.store with
  | none => some (.error ("i18n.Localize error: " ++ "Config is nil"))
  | some (.other _) => some (.error ("i18n.Localize error: " ++ "Config is not *Config type"))
  | some (.config appCfg) =>
    match appCfg.LangHandler with
    | none => none
    | some lh =>
      let lang := lh c.request appCfg.DefaultLanguage
      match appCfg.localizerMap with
      | none => none
      | some m =>
        let localizer := lookupLocalizer m lang appCfg.DefaultLanguage
        match params with
        | .str s => localizeWith localizer { MessageID := s }
        | .lcfg lc => localizeWith localizer lc
        | .other _ => some (.error ("i18n.Localize error: " ++ "Invalid params type"))

/-- The outcome of `MustLocalize`: the localized text, or the panic raised
from a returned error. -/
inductive MustResult where
  | text (s : String) : MustResult
  | panicked (e : String) : MustResult

/-- `MustLocalize`: return `Localize`'s text, panicking on its error.  The
outer `Option` propagates the (middleware-unreachable) panics from inside
`Localize` itself. -/
def MustLocalize (c : EchoCtx) (params : LocalizeParams) : Option MustResult :=
  match Localize c params with
  | none => none
  | some (.error e) => some (.panicked e)
  | some (.ok m) => some (.text m)

/-- The type dispatch `Localize` performs on its `params` argument, as a
lookup: the `LocalizeConfig` the switch builds, or `none` for any other
dynamic type. -/
def paramsToConfig : LocalizeParams → Option LocalizeConfig
  | .str s => some { MessageID := s }
  | .lcfg lc => some lc
  | .other _ => none

/-- Concrete fixture: a disk image holding bundle files for `en` and `zh`
under root `dir`. -/
def exDisk : FileSys :=
  [("dir/en.json", "welcome=hello"), ("dir/zh.json", "welcome=nihao")]

/-- Concrete fixture: a fully loaded bundle over `exDisk`'s messages. -/
def exBundle : Bundle :=
  ⟨"en", [("json", .jsonUnmarshal)],
    [("en", [("welcome", "hello")]), ("zh", [("welcome", "nihao")])]⟩

/-- Concrete fixture: the localizer map built over `exBundle`. -/
def exMap : LocalizerMap := initLocalizerMap exBundle ["zh", "en"] "en"

/-- Concrete fixture: a complete configuration of the shape the middleware
publishes. -/
def exCfg : Config :=
  { DefaultLanguage := "en"
    AcceptLanguages := some ["zh", "en"]
    FormatBundleFile := "json"
    Loader := some .osReadFile
    RootPath := "dir"
    LangHandler := some defaultLangHandler
    bundle := some exBundle
    localizerMap := some exMap
    UnmarshalFunc := some .jsonUnmarshal }

/-- Concrete fixture: a request context carrying `exCfg`, negotiating `zh`
through the `Accept-Language` header. -/
def exCtx : EchoCtx :=
  { request := some ⟨[], [("Accept-Language", "zh")]⟩
    store := [(localsKey, .config exCfg)] }

/-- Concrete fixture: a request context carrying `exCfg` whose query
parameter resolves the language to `fr`, which has no localizer entry. -/
def cexCtx : EchoCtx :=
  { request := some ⟨[("lang", "fr")], []⟩
    store := [(localsKey, .config exCfg)] }

/-- The error `Localize` produces on `cexCtx` for the unknown message ID
`missing`: it names the fallback localizer's language `en`, not the resolved
language `fr`. -/
def cexErr : String :=
  "i18n.Localize error: message \"missing\" not found in language \"en\""

/-- Concrete fixture: a partial configuration leaving the default language,
format, loader, root path, language handler and unmarshal function unset. -/
def partialCfg : Config :=
  { AcceptLanguages := some ["zh"] }

/-- Concrete fixture: a one-cell heap holding `exCfg` stripped of its
derived fields, for exercising construction through a caller pointer. -/
def exHeap : Heap :=
  [(1, { exCfg with bundle := none, localizerMap := none })]

/-! ### Helper lemmas -/

theorem alookup_astore {κ α : Type} [DecidableEq κ] (k k' : κ) (v : α) (m : List (κ × α)) :
    alookup k' (astore k v m) = if k' = k then some v else alookup k' m := by
  induction m with
  | nil =>
    by_cases h : k' = k <;> simp [astore, alookup, h, Ne.symm]
  | cons p t ih =>
    obtain ⟨k1, v1⟩ := p
    by_cases h1 : k1 = k
    · subst h1
      by_cases h2 : k1 = k'
      · subst h2
        simp [astore, alookup]
      · have h2' : ¬ k' = k1 := fun h => h2 h.symm
        simp [astore, alookup, h2, h2']
    · by_cases h2 : k1 = k'
      · subst h2
        have hne : ¬ k1 = k := h1
        simp [astore, alookup, h1, hne]
      · simp [astore, alookup, h1, h2, ih]

theorem alookup_eraseKey {κ α : Type} [DecidableEq κ] (k : κ) (l : List (κ × α)) :
    alookup k (eraseKey k l) = none := by
  induction l with
  | nil => simp [eraseKey, alookup]
  | cons p t ih =>
    obtain ⟨k1, v1⟩ := p
    by_cases h : k1 = k
    · simpa [eraseKey, List.filter, h] using ih
    · simpa [eraseKey, List.filter, h, alookup] using ih

theorem charsPrefixB_iff (n l : List Char) :
    charsPrefixB n l = true ↔ ∃ s, l = n ++ s := by
  induction n generalizing l with
  | nil => simp [charsPrefixB]
  | cons a n ih =>
    cases l with
    | nil => simp [charsPrefixB]
    | cons b t =>
      simp only [charsPrefixB, Bool.and_eq_true, beq_iff_eq, ih, List.cons_append]
      constructor
      · rintro ⟨rfl, s, rfl⟩
        exact ⟨s, rfl⟩
      · rintro ⟨s, h⟩
        obtain ⟨h1, h2⟩ := List.cons_eq_cons.mp h
        exact ⟨h1.symm, s, h2⟩

theorem charsInfixB_iff (n l : List Char) :
    charsInfixB n l = true ↔ ∃ p s, l = p ++ n ++ s := by
  induction l with
  | nil =>
    simp only [charsInfixB, charsPrefixB_iff]
    constructor
    · rintro ⟨s, h⟩
      exact ⟨[], s, by simpa using h⟩
    · rintro ⟨p, s, h⟩
      obtain ⟨h12, h3⟩ := List.append_eq_nil.mp h.symm
      obtain ⟨h1, h2⟩ := List.append_eq_nil.mp h12
      exact ⟨[], by simp [h2]⟩
  | cons c t ih =>
    simp only [charsInfixB, Bool.or_eq_true, charsPrefixB_iff, ih]
    constructor
    · rintro (⟨s, h⟩ | ⟨p, s, rfl⟩)
      · exact ⟨[], s, by simpa using h⟩
      · exact ⟨c :: p, s, rfl⟩
    · rintro ⟨p, s, h⟩
      cases p with
      | nil => exact Or.inl ⟨s, by simpa using h⟩
      | cons x p =>
        obtain ⟨h1, h2⟩ := List.cons_eq_cons.mp h
        exact Or.inr ⟨p, s, h2⟩

theorem strContains_sandwich (a b c : String) :
    strContains (a ++ b ++ c) b = true := by
  have hdata : (a ++ b ++ c).data = a.data ++ b.data ++ c.data := by
    rw [String.data_append, String.data_append]
  unfold strContains
  rw [hdata]
  exact (charsInfixB_iff b.data _).mpr ⟨a.data, c.data, rfl⟩

theorem alookup_foldl_astore (b : Bundle) (langs : List Tag) (m : LocalizerMap)
    (k : String) :
    (alookup k (langs.foldl (fun m lang => astore lang (NewLocalizer b lang) m) m)).isSome
      = true ↔ k ∈ langs ∨ (alookup k m).isSome = true := by
  induction langs generalizing m with
  | nil => simp
  | cons a t ih =>
    simp only [List.foldl_cons, ih, alookup_astore, List.mem_cons]
    by_cases h : k = a <;> simp [h, or_assoc]

theorem initLocalizerMap_mem (b : Bundle) (langs : List Tag) (d k : String) :
    (alookup k (initLocalizerMap b langs d)).isSome = true ↔ (k ∈ langs ∨ k = d) := by
  unfold initLocalizerMap
  by_cases hd :
      (alookup d (langs.foldl (fun m lang => astore lang (NewLocalizer b lang) m) [])).isSome
        = true
  · rw [if_pos hd, alookup_foldl_astore]
    have hdl : d ∈ langs := by
      have := (alookup_foldl_astore b langs [] d).mp hd
      simpa [alookup] using this
    simp only [alookup, Option.isSome_none, Bool.false_eq_true, or_false]
    exact ⟨Or.inl, fun h => h.elim id (fun h => h ▸ hdl)⟩
  · rw [if_neg hd, alookup_astore]
    by_cases hk : k = d
    · simp [hk]
    · simp only [hk, if_false, alookup_foldl_astore]
      simp [alookup, hk]

theorem heapGet_heapSet (h : Heap) (r : Ref) (c : Config) :
    heapGet (heapSet h r c) r = some c := by
  simp [heapGet, heapSet, alookup_astore]

/-! ### Claim theorems -/

/-- C1: the default language handler returns the `lang` query parameter when
that source matches (is non-empty), else the `Accept-Language` header when
that matches, else the default language; and with no request object (nil
context or nil request) it returns the default language immediately. -/
theorem defaultLangHandler_resolution_order :
    (∀ d, defaultLangHandler none d = d) ∧
    (∀ (r : HttpRequest) (d : String), r.QueryParam "lang" ≠ "" →
      defaultLangHandler (some r) d = r.QueryParam "lang") ∧
    (∀ (r : HttpRequest) (d : String), r.QueryParam "lang" = "" →
      r.HeaderGet "Accept-Language" ≠ "" →
      defaultLangHandler (some r) d = r.HeaderGet "Accept-Language") ∧
    (∀ (r : HttpRequest) (d : String), r.QueryParam "lang" = "" →
      r.HeaderGet "Accept-Language" = "" → defaultLangHandler (some r) d = d) := by
  refine ⟨fun d => rfl, ?_, ?_, ?_⟩
  · intro r d h1
    simp [defaultLangHandler, h1]
  · intro r d h1 h2
    simp [defaultLangHandler, h1, h2]
  · intro r d h1 h2
    simp [defaultLangHandler, h1, h2]

/-- Witness for C1 at concrete requests: query wins over header, header over
default, and an absent request yields the default. -/
theorem defaultLangHandler_resolution_order_witness :
    defaultLangHandler none "en" = "en" ∧
    defaultLangHandler (some ⟨[("lang", "fr")], [("Accept-Language", "zh")]⟩) "en" = "fr" ∧
    defaultLangHandler (some ⟨[], [("Accept-Language", "zh")]⟩) "en" = "zh" ∧
    defaultLangHandler (some ⟨[], []⟩) "en" = "en" :=
  ⟨defaultLangHandler_resolution_order.1 "en",
   defaultLangHandler_resolution_order.2.1
     ⟨[("lang", "fr")], [("Accept-Language", "zh")]⟩ "en" (by decide),
   defaultLangHandler_resolution_order.2.2.1
     ⟨[], [("Accept-Language", "zh")]⟩ "en" (by decide) (by decide),
   defaultLangHandler_resolution_order.2.2.2 ⟨[], []⟩ "en" (by decide) (by decide)⟩

/-- C10: a source whose value is the empty string is skipped exactly as if
it were absent — a request whose first `lang` query binding is empty behaves
like one with no `lang` binding at all, an empty `Accept-Language` header
behaves like a missing header, and resolution falls through to the next
source. -/
theorem defaultLangHandler_empty_source_skipped :
    ∀ (q hs : List (String × String)) (d : String),
    (alookup "lang" q = some "" →
      defaultLangHandler (some ⟨q, hs⟩) d
        = defaultLangHandler (some ⟨eraseKey "lang" q, hs⟩) d) ∧
    (alookup "Accept-Language" hs = some "" →
      defaultLangHandler (some ⟨q, hs⟩) d
        = defaultLangHandler (some ⟨q, eraseKey "Accept-Language" hs⟩) d) ∧
    (alookup "lang" q = some "" →
      HttpRequest.HeaderGet ⟨q, hs⟩ "Accept-Language" ≠ "" →
      defaultLangHandler (some ⟨q, hs⟩) d = HttpRequest.HeaderGet ⟨q, hs⟩ "Accept-Language") ∧
    (alookup "lang" q = some "" → alookup "Accept-Language" hs = some "" →
      defaultLangHandler (some ⟨q, hs⟩) d = d) := by
  intro q hs d
  refine ⟨?_, ?_, ?_, ?_⟩
  · intro h1
    simp [defaultLangHandler, HttpRequest.QueryParam, HttpRequest.HeaderGet, h1,
      alookup_eraseKey]
  · intro h2
    by_cases hq : (alookup "lang" q).getD "" = "" <;>
      simp [defaultLangHandler, HttpRequest.QueryParam, HttpRequest.HeaderGet, h2,
        alookup_eraseKey, hq]
  · intro h1 h2
    simp only [HttpRequest.HeaderGet] at h2
    simp [defaultLangHandler, HttpRequest.QueryParam, HttpRequest.HeaderGet, h1, h2]
  · intro h1 h2
    simp [defaultLangHandler, HttpRequest.QueryParam, HttpRequest.HeaderGet, h1, h2]

/-- Witness for C10: a request with `lang=` (empty) and an empty
`Accept-Language` header resolves to the default, as with no sources. -/
theorem defaultLangHandler_empty_source_skipped_witness :
    defaultLangHandler (some ⟨[("lang", "")], [("Accept-Language", "zh")]⟩) "en"
      = defaultLangHandler (some ⟨[], [("Accept-Language", "zh")]⟩) "en" ∧
    defaultLangHandler (some ⟨[("lang", "")], [("Accept-Language", "")]⟩) "en" = "en" :=
  ⟨(defaultLangHandler_empty_source_skipped [("lang", "")] [("Accept-Language", "zh")]
      "en").1 (by decide),
   (defaultLangHandler_empty_source_skipped [("lang", "")] [("Accept-Language", "")]
      "en").2.2.2 (by decide) (by decide)⟩

/-- C8: MustLocalize is Localize with errors turned into panics — same text
on success, a panic carrying the very error on failure (and the same
internal-panic behaviour otherwise). -/
theorem MustLocalize_delivery :
    ∀ (c : EchoCtx) (p : LocalizeParams),
      (Localize c p = none ↔ MustLocalize c p = none) ∧
      (∀ t, Localize c p = some (.ok t) ↔ MustLocalize c p = some (.text t)) ∧
      (∀ e, Localize c p = some (.error e) ↔ MustLocalize c p = some (.panicked e)) := by
  intro c p
  cases h : Localize c p with
  | none => simp [MustLocalize, h]
  | some r =>
    cases r with
    | ok t => simp [MustLocalize, h]
    | error e => simp [MustLocalize, h]

/-- Witness for C8: on the fixture, MustLocalize returns the text Localize
returns, and panics with the error Localize returns. -/
theorem MustLocalize_delivery_witness :
    MustLocalize exCtx (.str "welcome") = some (.text "nihao") ∧
    MustLocalize exCtx (.str "missing") = some (.panicked
      ("i18n.Localize error: " ++ msgNotFoundErr "missing" "zh")) :=
  ⟨((MustLocalize_delivery exCtx (.str "welcome")).2.1 "nihao").mp (by rfl),
   ((MustLocalize_delivery exCtx (.str "missing")).2.2 _).mp (by rfl)⟩

/-- C3: every successful middleware construction publishes a localizer map
whose key set is exactly the accepted languages plus the default language —
in particular the default language always has an entry.  The embedding is
pure: no function in the model returns a modified map after construction
(`Localize` and the middleware's per-request attach only read the
configuration), so the invariant holds in every reachable state. -/
theorem localizerMap_keys_invariant :
    ∀ (disk : FileSys) (args : List Ref) (h h2 : Heap) (r : Ref) (cfg2 : Config),
      NewMiddleware disk args h = .ok (h2, r, cfg2) →
      ∃ m, cfg2.localizerMap = some m ∧
        (alookup cfg2.DefaultLanguage m).isSome = true ∧
        ∀ k, (alookup k m).isSome = true ↔
          (k ∈ cfg2.AcceptLanguages.getD [] ∨ k = cfg2.DefaultLanguage) := by
  intro disk args h h2 r cfg2 hrun
  unfold NewMiddleware at hrun
  cases hcd : configDefault args h with
  | none => rw [hcd] at hrun; simp at hrun
  | some rh =>
    obtain ⟨r1, h1⟩ := rh
    rw [hcd] at hrun
    dsimp only [] at hrun
    cases hget : heapGet h1 r1 with
    | none => rw [hget] at hrun; simp at hrun
    | some cfg =>
      rw [hget] at hrun
      dsimp only [] at hrun
      cases hld : cfg.Loader with
      | none => rw [hld] at hrun; simp at hrun
      | some loader =>
        rw [hld] at hrun
        dsimp only [] at hrun
        cases hlm : loadMessages disk loader cfg.RootPath cfg.FormatBundleFile
            (regBundle cfg) (cfg.AcceptLanguages.getD []) with
        | error e => rw [hlm] at hrun; simp at hrun
        | ok pr =>
          obtain ⟨b2, tr⟩ := pr
          rw [hlm] at hrun
          simp only [Except.ok.injEq, Prod.mk.injEq] at hrun
          obtain ⟨hh, hr, hcfg⟩ := hrun
          subst hcfg
          refine ⟨initLocalizerMap b2 (cfg.AcceptLanguages.getD []) cfg.DefaultLanguage,
            rfl, ?_, ?_⟩
          · exact (initLocalizerMap_mem b2 _ _ _).mpr (Or.inr rfl)
          · intro k
            exact initLocalizerMap_mem b2 _ _ k

/-- Witness for C3: a concrete successful construction over the fixture disk
whose map contains the default language. -/
theorem localizerMap_keys_invariant_witness :
    ∃ h2 r cfg2 m, NewMiddleware exDisk [1] exHeap = .ok (h2, r, cfg2) ∧
      cfg2.localizerMap = some m ∧ (alookup cfg2.DefaultLanguage m).isSome = true ∧
      (alookup "zh" m).isSome = true := by
  obtain ⟨m, hm, hd, hk⟩ := localizerMap_keys_invariant exDisk [1] exHeap _ _ _ rfl
  exact ⟨_, _, _, m, rfl, hm, hd, (hk "zh").mpr (Or.inl (by decide))⟩

/-- C5: the bundle file path for a language is exactly the join of the root
path with `<tag>.<format>` (the `<RootPath>/<languageTag>.<FormatBundleFile>`
layout), and a successful load pass invokes the loader on exactly those
paths, in accepted-language order, parsing each returned byte buffer into
the bundle. -/
theorem loadMessages_path_contract :
    (∀ root lang fmt, bundleFilePath root lang fmt = pathJoin root (lang ++ "." ++ fmt)) ∧
    bundleFilePath "./example/localize" "en" "yaml" = "example/localize/en.yaml" ∧
    bundleFilePath "localize" "en" "yaml" = "localize" ++ "/" ++ ("en" ++ "." ++ "yaml") ∧
    ∀ (disk : FileSys) (loader : Loader) (root fmt : String) (b b2 : Bundle)
      (langs : List Tag) (tr : List String),
      loadMessages disk loader root fmt b langs = .ok (b2, tr) →
      tr = langs.map (fun l => pathJoin root (l ++ "." ++ fmt)) ∧
      ∀ p, p ∈ tr → ∃ (buf : String) (b3 b4 : Bundle),
        loader.LoadMessage disk p = .ok buf ∧
        Bundle.ParseMessageFileBytes b3 buf p = .ok b4 := by
  refine ⟨fun root lang fmt => rfl, by decide, by decide, ?_⟩
  intro disk loader root fmt b b2 langs tr
  induction langs generalizing b tr with
  | nil =>
    intro h
    simp only [loadMessages, Except.ok.injEq, Prod.mk.injEq] at h
    simp [← h.2]
  | cons lang rest ih =>
    intro h
    unfold loadMessages at h
    dsimp only [] at h
    cases hl : loadMessage disk loader b (bundleFilePath root lang fmt) with
    | error e => rw [hl] at h; simp at h
    | ok bnext =>
      rw [hl] at h
      dsimp only [] at h
      cases hr : loadMessages disk loader root fmt bnext rest with
      | error e => rw [hr] at h; simp at h
      | ok pr =>
        obtain ⟨b3, tr3⟩ := pr
        rw [hr] at h
        simp only [Except.ok.injEq, Prod.mk.injEq] at h
        obtain ⟨hb, ht⟩ := h
        subst hb
        obtain ⟨htr, hmem⟩ := ih bnext tr3 hr
        constructor
        · rw [← ht, htr]
          simp [bundleFilePath]
        · intro p hp
          rw [← ht] at hp
          rcases List.mem_cons.mp hp with hpe | hp2
          · subst hpe
            unfold loadMessage at hl
            cases hL : loader.LoadMessage disk (bundleFilePath root lang fmt) with
            | error e => rw [hL] at hl; simp at hl
            | ok buf =>
              rw [hL] at hl
              dsimp only [] at hl
              cases hP : b.ParseMessageFileBytes buf (bundleFilePath root lang fmt) with
              | error e => rw [hP] at hl; simp at hl
              | ok bb => exact ⟨buf, b, bb, rfl, hP⟩
          · exact hmem p hp2

/-- Witness for C5: a concrete successful load whose trace is exactly the
joined paths for `zh` and `en`. -/
theorem loadMessages_path_contract_witness :
    ∃ b2 tr, loadMessages exDisk .osReadFile "dir" "json" (regBundle exCfg) ["zh", "en"]
        = .ok (b2, tr) ∧
      tr = ["zh", "en"].map (fun l => pathJoin "dir" (l ++ "." ++ "json")) := by
  obtain ⟨b2, tr, hrun⟩ :
      ∃ b2 tr, loadMessages exDisk .osReadFile "dir" "json" (regBundle exCfg) ["zh", "en"]
        = .ok (b2, tr) := ⟨_, _, rfl⟩
  obtain ⟨htr, _⟩ := loadMessages_path_contract.2.2.2 exDisk .osReadFile "dir" "json"
    (regBundle exCfg) b2 ["zh", "en"] tr hrun
  exact ⟨b2, tr, hrun, htr⟩

/-- C6: configuration defaulting fills exactly the zero-valued fields with
the documented defaults (English default language, accepted languages
Chinese and English, `yaml` format, disk loader, the fixed example root
path, the default language handler, the YAML decoder), leaves every other
field — including the derived bundle and localizer map — unchanged, and with
no argument returns the shared `ConfigDefault` pointer itself, leaving the
heap untouched. -/
theorem configDefault_spec :
    (∀ h : Heap, configDefault [] h = some (ConfigDefaultRef, h)) ∧
    ConfigDefault.DefaultLanguage = Tag.english ∧
    ConfigDefault.AcceptLanguages = some [Tag.chinese, Tag.english] ∧
    ConfigDefault.FormatBundleFile = "yaml" ∧
    ConfigDefault.Loader = some .osReadFile ∧
    ConfigDefault.RootPath = "./example/localize" ∧
    ConfigDefault.LangHandler = some defaultLangHandler ∧
    ConfigDefault.UnmarshalFunc = some .yamlUnmarshal ∧
    (∀ (r : Ref) (h : Heap) (c : Config), heapGet h r = some c →
      configDefault [r] h = some (r, heapSet h r (configDefaultFill c))) ∧
    (∀ c : Config,
      (configDefaultFill c).DefaultLanguage
        = (if c.DefaultLanguage = Tag.und then Tag.english else c.DefaultLanguage) ∧
      (configDefaultFill c).AcceptLanguages
        = (if c.AcceptLanguages.isNone then some [Tag.chinese, Tag.english]
           else c.AcceptLanguages) ∧
      (configDefaultFill c).FormatBundleFile
        = (if c.FormatBundleFile = "" then "yaml" else c.FormatBundleFile) ∧
      (configDefaultFill c).Loader
        = (if c.Loader.isNone then some .osReadFile else c.Loader) ∧
      (configDefaultFill c).RootPath
        = (if c.RootPath = "" then "./example/localize" else c.RootPath) ∧
      (configDefaultFill c).LangHandler
        = (if c.LangHandler.isNone then some defaultLangHandler else c.LangHandler) ∧
      (configDefaultFill c).UnmarshalFunc
        = (if c.UnmarshalFunc.isNone then some .yamlUnmarshal else c.UnmarshalFunc) ∧
      (configDefaultFill c).bundle = c.bundle ∧
      (configDefaultFill c).localizerMap = c.localizerMap) := by
  refine ⟨fun h => rfl, rfl, rfl, rfl, rfl, rfl, rfl, rfl, ?_, ?_⟩
  · intro r h c hget
    simp [configDefault, hget]
  · intro c
    exact ⟨rfl, rfl, rfl, rfl, rfl, rfl, rfl, rfl, rfl⟩

/-- Witness for C6: defaulting a partial configuration through a concrete
heap cell fills only its unset fields. -/
theorem configDefault_spec_witness :
    configDefault [1] [(1, partialCfg)]
        = some (1, heapSet [(1, partialCfg)] 1 (configDefaultFill partialCfg)) ∧
    (configDefaultFill partialCfg).DefaultLanguage = Tag.english ∧
    (configDefaultFill partialCfg).AcceptLanguages = some ["zh"] :=
  ⟨configDefault_spec.2.2.2.2.2.2.2.2.1 1 [(1, partialCfg)] partialCfg rfl,
   by
    have h := (configDefault_spec.2.2.2.2.2.2.2.2.2 partialCfg).1
    simpa [partialCfg] using h,
   by
    have h := (configDefault_spec.2.2.2.2.2.2.2.2.2 partialCfg).2.1
    simpa [partialCfg] using h⟩

theorem Localize_attached (c : EchoCtx) (params : LocalizeParams) (cfg : Config)
    (lh : Option HttpRequest → String → String) (m : LocalizerMap)
    (h1 : alookup localsKey c.store = some (.config cfg))
    (h2 : cfg.LangHandler = some lh) (h3 : cfg.localizerMap = some m) :
    Localize c params =
      match params with
      | .str s => localizeWith
          (lookupLocalizer m (lh c.request cfg.DefaultLanguage) cfg.DefaultLanguage)
          { MessageID := s }
      | .lcfg lc => localizeWith
          (lookupLocalizer m (lh c.request cfg.DefaultLanguage) cfg.DefaultLanguage) lc
      | .other _ => some (.error ("i18n.Localize error: " ++ "Invalid params type")) := by
  simp [Localize, h1, h2, h3]

theorem Localizer.Localize_error_shape (l : Localizer) (lc : LocalizeConfig)
    (e : String) (h : l.Localize lc = .error e) :
    e = msgNotFoundErr lc.MessageID l.lang ∧
    msgLookup l.bundle l.lang lc.MessageID = none ∧
    msgLookup l.bundle l.bundle.defaultLanguage lc.MessageID = none := by
  unfold Localizer.Localize at h
  cases h1 : msgLookup l.bundle l.lang lc.MessageID with
  | some m => rw [h1] at h; simp at h
  | none =>
    rw [h1] at h
    dsimp only [] at h
    cases h2 : msgLookup l.bundle l.bundle.defaultLanguage lc.MessageID with
    | some m => rw [h2] at h; simp at h
    | none =>
      rw [h2] at h
      simp only [Except.error.injEq] at h
      exact ⟨h.symm, rfl, rfl⟩

theorem localizeWith_error_shape (loc : Option Localizer) (lc : LocalizeConfig)
    (e : String) (h : localizeWith loc lc = some (.error e)) :
    ∃ id lg, e = "i18n.Localize error: " ++ msgNotFoundErr id lg := by
  cases loc with
  | none => simp [localizeWith] at h
  | some l =>
    unfold localizeWith at h
    dsimp only [] at h
    cases hl : l.Localize lc with
    | ok t => rw [hl] at h; simp at h
    | error e2 =>
      rw [hl] at h
      simp only [Option.some.injEq, Except.error.injEq] at h
      obtain ⟨he2, _, _⟩ := Localizer.Localize_error_shape l lc e2 hl
      exact ⟨lc.MessageID, l.lang, by rw [← h, he2]⟩

theorem localizeWith_isSome (loc : Localizer) (lc : LocalizeConfig) :
    localizeWith (some loc) lc ≠ none := by
  unfold localizeWith
  cases hl : loc.Localize lc <;> simp [hl]

/-- C2 (amended): Localize returns an error exactly for a missing
configuration, a wrongly-typed attached value, a params value that is
neither a string nor a structured request, or a message ID absent from both
the used localizer's language and the bundle's default language; with a
complete attached configuration every other case returns the text with no
error, and the not-found error contains the message ID together with the
language code of the localizer actually used. -/
theorem Localize_error_cases :
    ∀ (c : EchoCtx) (params : LocalizeParams),
    (alookup localsKey c.store = none →
      Localize c params = some (.error ("i18n.Localize error: " ++ "Config is nil"))) ∧
    (∀ d, alookup localsKey c.store = some (.other d) →
      Localize c params
        = some (.error ("i18n.Localize error: " ++ "Config is not *Config type"))) ∧
    (∀ e, Localize c params = some (.error e) →
      e = "i18n.Localize error: " ++ "Config is nil" ∨
      e = "i18n.Localize error: " ++ "Config is not *Config type" ∨
      e = "i18n.Localize error: " ++ "Invalid params type" ∨
      ∃ id lg, e = "i18n.Localize error: " ++ msgNotFoundErr id lg) ∧
    (∀ (cfg : Config) (lh : Option HttpRequest → String → String) (m : LocalizerMap)
      (loc : Localizer),
      alookup localsKey c.store = some (.config cfg) →
      cfg.LangHandler = some lh → cfg.localizerMap = some m →
      lookupLocalizer m (lh c.request cfg.DefaultLanguage) cfg.DefaultLanguage = some loc →
      ((∀ d, params = .other d →
        Localize c params
          = some (.error ("i18n.Localize error: " ++ "Invalid params type"))) ∧
      (∀ lc txt, paramsToConfig params = some lc → loc.Localize lc = .ok txt →
        Localize c params = some (.ok txt)) ∧
      (∀ lc, paramsToConfig params = some lc →
        msgLookup loc.bundle loc.lang lc.MessageID = none →
        msgLookup loc.bundle loc.bundle.defaultLanguage lc.MessageID = none →
        ∃ e, Localize c params = some (.error e) ∧
          strContains e lc.MessageID = true ∧ strContains e loc.lang = true))) := by
  intro c params
  refine ⟨?_, ?_, ?_, ?_⟩
  · intro h
    simp [Localize, h]
  · intro d h
    simp [Localize, h]
  · intro e he
    unfold Localize at he
    cases hs : alookup localsKey c.store with
    | none =>
      rw [hs] at he
      simp only [Option.some.injEq, Except.error.injEq] at he
      exact Or.inl he.symm
    | some v =>
      rw [hs] at he
      dsimp only [] at he
      cases v with
      | other d =>
        simp only [Option.some.injEq, Except.error.injEq] at he
        exact Or.inr (Or.inl he.symm)
      | config cfg =>
        dsimp only [] at he
        cases hlh : cfg.LangHandler with
        | none => rw [hlh] at he; simp at he
        | some lh =>
          rw [hlh] at he
          dsimp only [] at he
          cases hlm : cfg.localizerMap with
          | none => rw [hlm] at he; simp at he
          | some m =>
            rw [hlm] at he
            dsimp only [] at he
            cases params with
            | other d =>
              simp only [Option.some.injEq, Except.error.injEq] at he
              exact Or.inr (Or.inr (Or.inl he.symm))
            | str s =>
              exact Or.inr (Or.inr (Or.inr (localizeWith_error_shape _ _ e he)))
            | lcfg lc =>
              exact Or.inr (Or.inr (Or.inr (localizeWith_error_shape _ _ e he)))
  · intro cfg lh m loc h1 h2 h3 h4
    have hred := fun p => Localize_attached c p cfg lh m h1 h2 h3
    refine ⟨?_, ?_, ?_⟩
    · intro d hp
      subst hp
      rw [hred]
    · intro lc txt hpc hloc
      cases params with
      | str s =>
        simp only [paramsToConfig, Option.some.injEq] at hpc
        subst hpc
        rw [hred]
        simp [localizeWith, h4, hloc]
      | lcfg lc2 =>
        simp only [paramsToConfig, Option.some.injEq] at hpc
        subst hpc
        rw [hred]
        simp [localizeWith, h4, hloc]
      | other d => simp [paramsToConfig] at hpc
    · intro lc hpc hm1 hm2
      have hle : loc.Localize lc = .error (msgNotFoundErr lc.MessageID loc.lang) := by
        simp [Localizer.Localize, hm1, hm2]
      have he : Localize c params
          = some (.error ("i18n.Localize error: " ++ msgNotFoundErr lc.MessageID loc.lang)) := by
        cases params with
        | str s =>
          simp only [paramsToConfig, Option.some.injEq] at hpc
          subst hpc
          rw [hred]
          simp [localizeWith, h4, hle]
        | lcfg lc2 =>
          simp only [paramsToConfig, Option.some.injEq] at hpc
          subst hpc
          rw [hred]
          simp [localizeWith, h4, hle]
        | other d => simp [paramsToConfig] at hpc
      refine ⟨_, he, ?_, ?_⟩
      · have hsplit : "i18n.Localize error: " ++ msgNotFoundErr lc.MessageID loc.lang
            = ("i18n.Localize error: " ++ "message " ++ "\"") ++ lc.MessageID
              ++ ("\"" ++ " not found in language " ++ "\"" ++ loc.lang ++ "\"") := by
          simp only [msgNotFoundErr, String.append_assoc]
        rw [hsplit]
        exact strContains_sandwich _ _ _
      · have hsplit : "i18n.Localize error: " ++ msgNotFoundErr lc.MessageID loc.lang
            = ("i18n.Localize error: " ++ "message " ++ "\"" ++ lc.MessageID ++ "\""
                ++ " not found in language " ++ "\"") ++ loc.lang ++ "\"" := by
          simp only [msgNotFoundErr, String.append_assoc]
        rw [hsplit]
        exact strContains_sandwich _ _ _

/-- Witness for C2: with the fixture configuration attached, an invalid
params value errors, a present message returns its text with no error, and
a missing message yields an error containing both the ID and the used
language. -/
theorem Localize_error_cases_witness :
    Localize exCtx (.other "int")
      = some (.error ("i18n.Localize error: " ++ "Invalid params type")) ∧
    Localize exCtx (.str "welcome") = some (.ok "nihao") ∧
    ∃ e, Localize exCtx (.str "missing") = some (.error e) ∧
      strContains e "missing" = true ∧ strContains e "zh" = true := by
  refine ⟨?_, ?_, ?_⟩
  · exact ((Localize_error_cases exCtx (.other "int")).2.2.2 exCfg defaultLangHandler
      exMap (NewLocalizer exBundle "zh") rfl rfl rfl rfl).1 "int" rfl
  · exact ((Localize_error_cases exCtx (.str "welcome")).2.2.2 exCfg defaultLangHandler
      exMap (NewLocalizer exBundle "zh") rfl rfl rfl rfl).2.1
      { MessageID := "welcome" } "nihao" rfl rfl
  · exact ((Localize_error_cases exCtx (.str "missing")).2.2.2 exCfg defaultLangHandler
      exMap (NewLocalizer exBundle "zh") rfl rfl rfl rfl).2.2
      { MessageID := "missing" } rfl rfl rfl

/-- Counterexample for C2 as stated: when the resolved language (`fr`, from
the `lang` query parameter) has no localizer entry, the not-found error
names the fallback localizer's language (`en`), not the resolved language —
`"fr"` does not occur in the error at all. -/
theorem Localize_resolved_lang_cex :
    exCfg.LangHandler = some defaultLangHandler ∧
    defaultLangHandler cexCtx.request exCfg.DefaultLanguage = "fr" ∧
    Localize cexCtx (.str "missing") = some (.error cexErr) ∧
    strContains cexErr "missing" = true ∧
    strContains cexErr "fr" = false :=
  ⟨rfl, rfl, rfl, rfl, rfl⟩

/-- C4: when the resolved language has no entry in the localizer map, the
default language's localizer is used; whenever the default language has an
entry (which construction guarantees), the lookup succeeds for every
resolved language, Localize never panics for lack of a language, and any
error it returns is an invalid-params or message-not-found error. -/
theorem Localize_language_fallback :
    (∀ (m : LocalizerMap) (lang d : String),
      alookup lang m = none → lookupLocalizer m lang d = alookup d m) ∧
    (∀ (m : LocalizerMap) (lang d : String),
      (alookup d m).isSome = true → (lookupLocalizer m lang d).isSome = true) ∧
    (∀ (c : EchoCtx) (params : LocalizeParams) (cfg : Config)
      (lh : Option HttpRequest → String → String) (m : LocalizerMap),
      alookup localsKey c.store = some (.config cfg) →
      cfg.LangHandler = some lh → cfg.localizerMap = some m →
      (alookup cfg.DefaultLanguage m).isSome = true →
      Localize c params ≠ none ∧
      ∀ e, Localize c params = some (.error e) →
        e = "i18n.Localize error: " ++ "Invalid params type" ∨
        ∃ id lg, e = "i18n.Localize error: " ++ msgNotFoundErr id lg) := by
  have fall1 : ∀ (m : LocalizerMap) (lang d : String),
      alookup lang m = none → lookupLocalizer m lang d = alookup d m := by
    intro m lang d h
    simp [lookupLocalizer, h]
  have fall2 : ∀ (m : LocalizerMap) (lang d : String),
      (alookup d m).isSome = true → (lookupLocalizer m lang d).isSome = true := by
    intro m lang d h
    unfold lookupLocalizer
    cases ha : alookup lang m with
    | none => simpa using h
    | some l => simp
  refine ⟨fall1, fall2, ?_⟩
  intro c params cfg lh m h1 h2 h3 hd
  obtain ⟨loc, hloc⟩ := Option.isSome_iff_exists.mp
    (fall2 m (lh c.request cfg.DefaultLanguage) cfg.DefaultLanguage hd)
  have hred := Localize_attached c params cfg lh m h1 h2 h3
  constructor
  · rw [hred]
    cases params with
    | str s => rw [hloc]; exact localizeWith_isSome loc _
    | lcfg lc => rw [hloc]; exact localizeWith_isSome loc _
    | other d => simp
  · intro e he
    rw [hred] at he
    cases params with
    | str s => exact Or.inr (localizeWith_error_shape _ _ e he)
    | lcfg lc => exact Or.inr (localizeWith_error_shape _ _ e he)
    | other d =>
      simp only [Option.some.injEq, Except.error.injEq] at he
      exact Or.inl he.symm

/-- Witness for C4: on the fixture, a request resolving to `fr` (no entry)
still reaches the default localizer — Localize does not panic and its error
is a message-not-found error, not a missing-language failure. -/
theorem Localize_language_fallback_witness :
    lookupLocalizer exMap "fr" "en" = alookup "en" exMap ∧
    Localize cexCtx (.str "missing") ≠ none ∧
    ∃ id lg, cexErr = "i18n.Localize error: " ++ msgNotFoundErr id lg := by
  have h := Localize_language_fallback.2.2 cexCtx (.str "missing") exCfg
    defaultLangHandler exMap rfl rfl rfl rfl
  refine ⟨Localize_language_fallback.1 exMap "fr" "en" rfl, h.1, ?_⟩
  exact (h.2 cexErr rfl).resolve_left (by decide)

/-- C7: during construction, a loader or parse failure on any accepted
language's bundle file aborts `NewMiddleware` unrecoverably with exactly
that failure (in Go, a panic — the function's only return type is the
middleware, so no error value can reach the caller), and a middleware is
returned only when the whole load pass succeeded. -/
theorem NewMiddleware_fail_fast :
    ∀ (disk : FileSys) (r : Ref) (h : Heap) (c : Config) (loader : Loader),
      heapGet h r = some c →
      (configDefaultFill c).Loader = some loader →
      (∀ e, loadMessages disk loader (configDefaultFill c).RootPath
          (configDefaultFill c).FormatBundleFile (regBundle (configDefaultFill c))
          ((configDefaultFill c).AcceptLanguages.getD []) = .error e →
        NewMiddleware disk [r] h = .error e) ∧
      (∀ h2 r2 cfg2, NewMiddleware disk [r] h = .ok (h2, r2, cfg2) →
        ∃ b2 tr, loadMessages disk loader (configDefaultFill c).RootPath
          (configDefaultFill c).FormatBundleFile (regBundle (configDefaultFill c))
          ((configDefaultFill c).AcceptLanguages.getD []) = .ok (b2, tr)) := by
  intro disk r h c loader hget hloader
  have hcd : configDefault [r] h = some (r, heapSet h r (configDefaultFill c)) := by
    simp [configDefault, hget]
  have hget2 := heapGet_heapSet h r (configDefaultFill c)
  constructor
  · intro e he
    unfold NewMiddleware
    rw [hcd]
    dsimp only []
    rw [hget2]
    dsimp only []
    rw [hloader]
    dsimp only []
    rw [he]
  · intro h2 r2 cfg2 hok
    unfold NewMiddleware at hok
    rw [hcd] at hok
    dsimp only [] at hok
    rw [hget2] at hok
    dsimp only [] at hok
    rw [hloader] at hok
    dsimp only [] at hok
    cases hlm : loadMessages disk loader (configDefaultFill c).RootPath
        (configDefaultFill c).FormatBundleFile (regBundle (configDefaultFill c))
        ((configDefaultFill c).AcceptLanguages.getD []) with
    | error e => rw [hlm] at hok; simp at hok
    | ok pr =>
      obtain ⟨b2, tr⟩ := pr
      exact ⟨b2, tr, rfl⟩

/-- Witness for C7: over an empty disk the first bundle file is missing, and
construction aborts with exactly the loader's error. -/
theorem NewMiddleware_fail_fast_witness :
    NewMiddleware [] [1] exHeap
      = .error ("open " ++ "dir/zh.json" ++ ": no such file or directory") :=
  (NewMiddleware_fail_fast [] 1 exHeap
    { exCfg with bundle := none, localizerMap := none } .osReadFile rfl rfl).1 _ rfl

/-- C9: defaulting writes through the caller's pointer and hands the same
pointer back; successful construction publishes the derived bundle and
localizer map into the caller's struct, where the caller (and any second
construction run over the same pointer) observes them. -/
theorem config_inplace_sharing :
    (∀ (r : Ref) (h : Heap) (c : Config), heapGet h r = some c →
      configDefault [r] h = some (r, heapSet h r (configDefaultFill c))) ∧
    (∀ (disk : FileSys) (r : Ref) (h h2 : Heap) (r2 : Ref) (cfg2 c : Config),
      heapGet h r = some c →
      NewMiddleware disk [r] h = .ok (h2, r2, cfg2) →
      r2 = r ∧ heapGet h2 r = some cfg2 ∧
      cfg2.bundle.isSome = true ∧ cfg2.localizerMap.isSome = true ∧
      configDefault [r] h2 = some (r, heapSet h2 r (configDefaultFill cfg2))) := by
  constructor
  · intro r h c hget
    simp [configDefault, hget]
  · intro disk r h h2 r2 cfg2 c hget hok
    have hcd : configDefault [r] h = some (r, heapSet h r (configDefaultFill c)) := by
      simp [configDefault, hget]
    have hget2 := heapGet_heapSet h r (configDefaultFill c)
    unfold NewMiddleware at hok
    rw [hcd] at hok
    dsimp only [] at hok
    rw [hget2] at hok
    dsimp only [] at hok
    cases hld : (configDefaultFill c).Loader with
    | none => rw [hld] at hok; simp at hok
    | some loader =>
      rw [hld] at hok
      dsimp only [] at hok
      cases hlm : loadMessages disk loader (configDefaultFill c).RootPath
          (configDefaultFill c).FormatBundleFile (regBundle (configDefaultFill c))
          (((configDefaultFill c).AcceptLanguages).getD []) with
      | error e => rw [hlm] at hok; simp at hok
      | ok pr =>
        obtain ⟨b2, tr⟩ := pr
        rw [hlm] at hok
        simp only [Except.ok.injEq, Prod.mk.injEq] at hok
        obtain ⟨hh, hr, hcfg⟩ := hok
        subst hh
        subst hr
        subst hcfg
        refine ⟨rfl, heapGet_heapSet _ _ _, rfl, rfl, ?_⟩
        simp [configDefault, heapGet_heapSet]

/-- Witness for C9: a concrete construction over the fixture heap returns
the caller's reference and leaves the filled configuration (bundle and
localizer map present) in that heap cell. -/
theorem config_inplace_sharing_witness :
    ∃ h2 r2 cfg2, NewMiddleware exDisk [1] exHeap = .ok (h2, r2, cfg2) ∧ r2 = 1 ∧
      heapGet h2 1 = some cfg2 ∧ cfg2.localizerMap.isSome = true := by
  have h := config_inplace_sharing.2 exDisk 1 exHeap _ _ _
    { exCfg with bundle := none, localizerMap := none } rfl rfl
  exact ⟨_, _, _, rfl, h.1, h.2.1, h.2.2.2.1⟩

end EchoI18n
